import Mathlib

/-!
Verification of the Bragi job-dispatch and coordination layer.

The definitions below are a shallow embedding of the repository's Python
sources (`app/main.py`, `app/services/cache.py`, `app/services/queue.py`,
`app/services/image.py`, `app/services/storage.py`, `app/config.py`).
External collaborators (the Redis store primitives themselves, the codec
pipeline, the perceptual-hash and histogram feature extractors, HTML
parsing) are modelled as explicit oracle parameters; everything else is
translated directly from the source.  Timestamps and TTL expiry are not
part of the functional state; expiry shows up only as a cache-deletion
step in the reachability relation.
-/

namespace Bragi

/-- The `ProcessingStatus` string enum of `app/services/cache.py`. -/
inductive ProcessingStatus
  | pending
  | processing
  | complete
  | error
deriving DecidableEq, Repr

/-- Serialized form of a `ProcessingStatus` (its str-enum value). -/
def ProcessingStatus.toStr : ProcessingStatus → String
  | .pending => "pending"
  | .processing => "processing"
  | .complete => "complete"
  | .error => "error"

/-- A JSON object whose values are strings (the shape of the `formats` and
`dimensions` dictionaries produced by the code). -/
abbrev Dict := List (String × String)

/-- A metadata value: a string or a string-valued dictionary, the only two
shapes the code ever stores in a status record's metadata. -/
inductive MetaVal
  | s (v : String)
  | dict (v : Dict)
deriving DecidableEq, Repr

/-- The free-form `metadata` JSON object of a status record. -/
abbrev Metadata := List (String × MetaVal)

/-- Python `metadata.get(k)`. -/
def mdGet (md : Metadata) (k : String) : Option MetaVal :=
  (md.find? (fun e => e.1 == k)).map (fun e => e.2)

/-- `metadata.get(k)` when the stored value is a string. -/
def mdGetStr (md : Metadata) (k : String) : Option String :=
  match mdGet md k with
  | some (.s v) => some v
  | _ => none

/-- `metadata.get(k)` when the stored value is a dictionary. -/
def mdGetDict (md : Metadata) (k : String) : Option Dict :=
  match mdGet md k with
  | some (.dict v) => some v
  | _ => none

/-- The JSON document stored under `image:<url_hash>` by
`CacheService.set_image_status` (the `updated_at` timestamp is elided). -/
structure StatusRecord where
  status : ProcessingStatus
  metadata : Metadata
deriving DecidableEq, Repr

/-- The `image:*` keyspace of the Redis cache, as an association list with
distinct keys (maintained by `cacheSetEntry`). -/
abbrev Cache := List (String × StatusRecord)

/-- Redis `GET image:<k>` followed by `json.loads`
(`CacheService.get_image_status`). -/
def cacheGet (c : Cache) (k : String) : Option StatusRecord :=
  (c.find? (fun e => e.1 == k)).map (fun e => e.2)

/-- Redis `SET image:<k>` (`CacheService.set_image_status`): unconditional
overwrite of the key. -/
def cacheSetEntry (c : Cache) (k : String) (r : StatusRecord) : Cache :=
  (k, r) :: c.filter (fun e => !(e.1 == k))

/-- The shared Redis state: the `image:*` status records, the set of held
`lock:*` keys, and the set of fingerprints whose optimized artifacts exist
on disk (`StorageManager.optimized_exists`). -/
structure SysState where
  cache : Cache
  locks : List String
  disk : List String
deriving DecidableEq, Repr

/-- `CacheService.set_image_status` acting on the shared state. -/
def setImageStatus (st : SysState) (k : String) (s : ProcessingStatus) (md : Metadata) : SysState :=
  { st with cache := cacheSetEntry st.cache k ⟨s, md⟩ }

/-- `CacheService.acquire_lock`: Redis `SET lock:<k> 1 NX`, an atomic
create-if-absent returning whether this call created the key. -/
def acquireLock (st : SysState) (k : String) : Bool × SysState :=
  if st.locks.contains k then (false, st)
  else (true, { st with locks := k :: st.locks })

/-- `CacheService.release_lock`: unconditional delete of `lock:<k>`. -/
def releaseLock (st : SysState) (k : String) : SysState :=
  { st with locks := st.locks.filter (fun x => !(x == k)) }

/-- `CacheService.get_bulk_status`: one pipelined `GET` per requested hash,
zipped back into a map.  (A Python dict keyed by the hashes; duplicate
hashes collapse to one entry there, but carry the same value here since the
value is a function of the key alone.) -/
def getBulkStatus (c : Cache) (hashes : List String) : List (String × Option StatusRecord) :=
  hashes.map (fun h => (h, cacheGet c h))

/-- Python `cached_statuses.get(url_hash)` on the bulk-status map. -/
def bulkLookup (m : List (String × Option StatusRecord)) (k : String) : Option StatusRecord :=
  match m.find? (fun e => e.1 == k) with
  | some e => e.2
  | none => none

/-- `CacheService.get_queue_length`: scan `image:*` and count the records
whose status is `processing`. -/
def getQueueLength (st : SysState) : Nat :=
  (st.cache.filter (fun e => e.2.status == ProcessingStatus.processing)).length

/-- A task message as serialized by `enqueue_task` / `enqueue_bulk_tasks`
in `app/main.py` (the HTML endpoint's payload has no `size` key, modelled
as `none`). -/
structure TaskData where
  task_type : String
  url : String
  url_hash : String
  size : Option Nat
deriving DecidableEq, Repr

/-- The dictionary returned by `ImageProcessor.process_url` on success
(its `original_url` and `status` fields are reconstructed at the call
sites). -/
structure ProcResult where
  optimized_url : String
  formats : Dict
  dimensions : Dict
deriving DecidableEq, Repr

/-- The external codec pipeline: `ImageProcessor.process_url(url, url_hash,
size)`, which fetches, decodes, re-encodes and writes artifacts, returning
a result dictionary or raising. -/
abbrev Codec := String → String → Option Nat → Except String ProcResult

/-- One element of a bulk request (`ImageUrlRequest`). -/
structure Item where
  url : String
  size : Option Nat
deriving DecidableEq, Repr

/-- The `ImageResponse` model of `app/main.py`. -/
structure ImageResponse where
  original_url : String
  status : String
  optimized_url : Option String := none
  formats : Option Dict := none
  dimensions : Option Dict := none
deriving DecidableEq, Repr

/-- The cache-hit response built by `process_image_url` and
`process_bulk_urls` from a COMPLETE record's metadata
(`dimensions` defaults to the empty dict via `.get("dimensions", {})`). -/
def completeResponse (url : String) (md : Metadata) : ImageResponse :=
  { original_url := url
    status := "complete"
    optimized_url := mdGetStr md "optimized_url"
    formats := mdGetDict md "formats"
    dimensions := some ((mdGetDict md "dimensions").getD []) }

/-- Python `HOST.rstrip('/')` in `StorageManager.get_optimized_url`. -/
def rstripSlash (s : String) : String :=
  s.dropRightWhile (fun c => c == '/')

/-- `StorageManager.get_optimized_url(image_hash, format_type)` with no
size argument. -/
def getOptimizedUrlFmt (host image_hash fmt : String) : String :=
  rstripSlash host ++ "/storage/processed/" ++ fmt ++ "/" ++ image_hash ++ "." ++ fmt

/-- `StorageManager.get_optimized_url(image_hash)` with the default
format `avif`, as called by the queue worker. -/
def getOptimizedUrl (host image_hash : String) : String :=
  getOptimizedUrlFmt host image_hash "avif"

/-- `StorageManager.get_available_formats(image_hash)` with no size; the
original-file extension lookup (a filesystem glob) is the oracle
`origExt`. -/
def getAvailableFormats (host : String) (origExt : String → Option String) (image_hash : String) : Dict :=
  [("original", host ++ "/storage/originals/" ++ image_hash ++ (origExt image_hash).getD ""),
   ("avif", getOptimizedUrlFmt host image_hash "avif"),
   ("webp", getOptimizedUrlFmt host image_hash "webp")]

/-- The worker-loop callback `process_image_task` in `app/main.py`: run the
codec pipeline, then write COMPLETE with `optimized_url` and `formats`
metadata, or ERROR with the exception text. -/
def processImageTask (codec : Codec) (origExt : String → Option String) (host : String)
    (st : SysState) (t : TaskData) : SysState :=
  match codec t.url t.url_hash t.size with
  | .ok _ =>
      setImageStatus { st with disk := t.url_hash :: st.disk } t.url_hash .complete
        [("optimized_url", .s (getOptimizedUrl host t.url_hash)),
         ("formats", .dict (getAvailableFormats host origExt t.url_hash))]
  | .error e => setImageStatus st t.url_hash .error [("error", .s e)]

/-- The inline-processing tail of `process_image_url`: invoke the codec
pipeline directly; on failure write ERROR and raise HTTP 500. -/
def processUrlInline (codec : Codec) (st : SysState) (url h : String) (size : Option Nat) :
    Except Nat ImageResponse × SysState :=
  match codec url h size with
  | .ok r =>
      (.ok { original_url := url, status := "complete", optimized_url := some r.optimized_url,
             formats := some r.formats, dimensions := some r.dimensions },
       { st with disk := h :: st.disk })
  | .error e => (.error 500, setImageStatus st h .error [("error", .s e)])

/-- The `/api/url` endpoint `process_image_url`: fingerprint the URL, serve
a COMPLETE cache hit, otherwise process inline (this endpoint never touches
the lock or the queue). -/
def processImageUrl (codec : Codec) (hashf : String → String) (st : SysState)
    (url : String) (size : Option Nat) : Except Nat ImageResponse × SysState :=
  let h := hashf url
  match cacheGet st.cache h with
  | some cs =>
      if cs.status = .complete then (.ok (completeResponse url cs.metadata), st)
      else processUrlInline codec st url h size
  | none => processUrlInline codec st url h size

/-- Accumulator of the `process_bulk_urls` loop: the response list, the
task list to be bulk-enqueued after the loop, and the shared state. -/
structure BulkAcc where
  responses : List ImageResponse
  tasks : List TaskData
  st : SysState
deriving DecidableEq, Repr

/-- One iteration of the `process_bulk_urls` loop for `(item, url_hash)`:
snapshot hit (complete or in-progress), on-disk reprocessing, lock
contention with a fresh status re-read, or lock acquisition with a PENDING
write and a queued task. -/
def bulkItemStep (codec : Codec) (snapshot : List (String × Option StatusRecord))
    (acc : BulkAcc) (item : Item) (h : String) : BulkAcc :=
  match bulkLookup snapshot h with
  | some cs =>
      if cs.status = .complete then
        { acc with responses := acc.responses ++ [completeResponse item.url cs.metadata] }
      else
        { acc with responses := acc.responses ++ [{ original_url := item.url, status := cs.status.toStr }] }
  | none =>
      if acc.st.disk.contains h then
        match codec item.url h item.size with
        | .ok r =>
            { acc with
              responses := acc.responses ++
                [{ original_url := item.url, status := "complete", optimized_url := some r.optimized_url,
                   formats := some r.formats, dimensions := some r.dimensions }]
              st := { acc.st with disk := h :: acc.st.disk } }
        | .error e =>
            { acc with
              responses := acc.responses ++
                [{ original_url := item.url, status := "error", optimized_url := none,
                   formats := none, dimensions := none }]
              st := setImageStatus acc.st h .error [("error", .s e)] }
      else
        match acquireLock acc.st h with
        | (false, _) =>
            { acc with responses := acc.responses ++
                [{ original_url := item.url,
                   status := ((cacheGet acc.st.cache h).map (fun r => r.status.toStr)).getD "processing" }] }
        | (true, st1) =>
            { responses := acc.responses ++ [{ original_url := item.url, status := "pending" }]
              tasks := acc.tasks ++
                [{ task_type := "process_image", url := item.url, url_hash := h, size := item.size }]
              st := setImageStatus st1 h .pending [] }

/-- The `/api/url/bulk` endpoint `process_bulk_urls`: hash every item, take
one bulk-status snapshot, run the per-item loop threading the shared state,
and bulk-enqueue the accumulated tasks (`acc.tasks`) at the end. -/
def processBulkUrls (codec : Codec) (hashf : String → String) (st : SysState)
    (items : List Item) : BulkAcc :=
  let hashes := items.map (fun it => hashf it.url)
  let snapshot := getBulkStatus st.cache hashes
  (items.zip hashes).foldl (fun acc p => bulkItemStep codec snapshot acc p.1 p.2) ⟨[], [], st⟩

/-- The parse result of `ImageProcessor.parse_html_tag` (an external HTML
parser): the img tag's src URL and its attribute dictionary. -/
structure ParsedImg where
  url : String
  attributes : Dict
deriving DecidableEq, Repr

/-- The `HtmlResponse` model of `app/main.py`. -/
structure HtmlResponse where
  original_html : String
  status : String
  optimized_html : Option String := none
deriving DecidableEq, Repr

/-- Decidable equality for `Except` results. -/
instance {ε α : Type} [DecidableEq ε] [DecidableEq α] : DecidableEq (Except ε α)
  | .ok a, .ok b =>
      if h : a = b then .isTrue (by rw [h]) else .isFalse (by intro hh; cases hh; exact h rfl)
  | .ok _, .error _ => .isFalse (by intro hh; cases hh)
  | .error _, .ok _ => .isFalse (by intro hh; cases hh)
  | .error a, .error b =>
      if h : a = b then .isTrue (by rw [h]) else .isFalse (by intro hh; cases hh; exact h rfl)

/-- Outcome of one `/api/html` call: the HTTP result (`Except` carries the
error status code), the tasks enqueued, and the resulting shared state. -/
structure HtmlResult where
  result : Except Nat HtmlResponse
  tasks : List TaskData
  st : SysState
deriving DecidableEq, Repr

/-- The cache-miss tail of `process_html_tag`: on-disk backfill, lock
contention, or lock acquisition with a PENDING write and an enqueue.
In the on-disk branch the COMPLETE backfill write happens first, then
`create_picture_tag` is called with three arguments although it is
declared with two (`ImageProcessor.create_picture_tag(self, image_hash,
attributes)`), so a `TypeError` reaches the handler, which releases the
lock and returns HTTP 400. -/
def htmlAfterCacheMiss (origExt : String → Option String) (host : String)
    (st : SysState) (html : String) (img : ParsedImg) (h : String) : HtmlResult :=
  if st.disk.contains h then
    let st1 := setImageStatus st h .complete [("formats", .dict (getAvailableFormats host origExt h))]
    ⟨.error 400, [], releaseLock st1 h⟩
  else
    match acquireLock st h with
    | (false, _) => ⟨.ok { original_html := html, status := "processing" }, [], st⟩
    | (true, st1) =>
        ⟨.ok { original_html := html, status := "pending" },
         [{ task_type := "process_image", url := img.url, url_hash := h, size := none }],
         setImageStatus st1 h .pending []⟩

/-- The `/api/html` endpoint `process_html_tag`.  When the cached record is
COMPLETE the code calls `create_picture_tag` with three arguments against a
two-parameter declaration; the resulting `TypeError` is caught by the
handler, which releases the fingerprint's lock and returns HTTP 400.  When
no img tag parses, the `ValueError` handler itself trips over the unbound
`url_hash` local, surfacing a server error (500). -/
def processHtmlTag (hashf : String → String) (parsed : Option ParsedImg)
    (origExt : String → Option String) (host : String)
    (st : SysState) (html : String) : HtmlResult :=
  match parsed with
  | none => ⟨.error 500, [], st⟩
  | some img =>
      let h := hashf img.url
      match cacheGet st.cache h with
      | some cs =>
          if cs.status = .complete then ⟨.error 400, [], releaseLock st h⟩
          else htmlAfterCacheMiss origExt host st html img h
      | none => htmlAfterCacheMiss origExt host st html img h

/-- The `/health` endpoint's response body. -/
structure HealthInfo where
  status : String
  queue_length : Nat
  processing : Nat
deriving DecidableEq, Repr

/-- The `/health` endpoint `health_check`: the broker's message count plus
the cache-derived in-flight count `getQueueLength`. -/
def healthCheck (st : SysState) (message_count : Nat) : HealthInfo :=
  { status := "healthy", queue_length := message_count, processing := getQueueLength st }

/-- What the consumer does with a delivered message: acknowledge it or
reject it back to the broker. -/
inductive AckAction
  | ack
  | reject
deriving DecidableEq, Repr

/-- Semantics of `async with message.process()` (aio-pika): acknowledge on
normal exit of the block, reject if an exception escapes the block. -/
def withProcess (body : Except String Unit) : AckAction :=
  match body with
  | .ok _ => .ack
  | .error _ => .reject

/-- The message handler installed by `QueueService.process_queue`: inside
`message.process()`, decode the body and run the callback under a
`try/except` that logs and swallows every exception. -/
def handleMessage (decoded : Except String TaskData)
    (callback : TaskData → Except String Unit) : AckAction :=
  withProcess
    (match decoded with
     | .error _ => .ok ()
     | .ok body =>
         match callback body with
         | .ok _ => .ok ()
         | .error _ => .ok ())

/-- `settings.COMBINED_THRESHOLD` from `app/config.py`. -/
def COMBINED_THRESHOLD : ℚ := 85 / 100

/-- The combined similarity score of `ImageProcessor.remove_duplicates`:
`0.7 * (1 - hamming/64) + 0.3 * correlation` (real arithmetic idealized
over the rationals). -/
def combinedSim (hamming corr : ℚ) : ℚ :=
  (7 : ℚ) / 10 * (1 - hamming / 64) + (3 : ℚ) / 10 * corr

/-- The duplicate test inside the `remove_duplicates` loop: compare the
candidate against every previously accepted representative and stop at the
first combined score strictly above the threshold. -/
def isDup {α : Type} (phashD histC : α → α → ℚ) (t : ℚ) (unique : List α) (x : α) : Bool :=
  unique.any (fun y => decide (t < combinedSim (phashD x y) (histC x y)))

/-- `ImageProcessor.remove_duplicates`.  The source computes per-index
feature lists and walks indices, keeping `unique_indices` and returning
the images at those indices; since the features are pure functions of the
image bytes, that loop is this left fold over the images themselves, with
the feature extractors (`imagehash.average_hash` distance and
`cv2.compareHist` correlation) as oracles `phashD` and `histC`. -/
def removeDuplicates {α : Type} (phashD histC : α → α → ℚ) (t : ℚ) (images : List α) : List α :=
  images.foldl
    (fun unique x => if isDup phashD histC t unique x then unique else unique ++ [x]) []

/-- Modelled from the claim's words, for comparison with
`removeDuplicates`: iterate in input order; an image is discarded if and
only if `0.7 * (1 - hamming/64) + 0.3 * correlation` strictly exceeds the
threshold against at least one previously accepted representative. -/
def dedupSpec {α : Type} (phashD histC : α → α → ℚ) (t : ℚ) (images : List α) : List α :=
  images.foldl
    (fun accepted x =>
      if ∃ y ∈ accepted, t < (7 : ℚ) / 10 * (1 - phashD x y / 64) + (3 : ℚ) / 10 * histC x y
      then accepted else accepted ++ [x]) []

/-- Reachable shared states: from an empty cache (and any pre-existing
on-disk artifacts), close under the three endpoints, the worker-loop
callback, lock release, and TTL expiry of cache entries and locks. -/
inductive Reachable : SysState → Prop
  | init (disk : List String) : Reachable ⟨[], [], disk⟩
  | singleUrl (codec : Codec) (hashf : String → String) (url : String) (size : Option Nat)
      {st : SysState} : Reachable st → Reachable (processImageUrl codec hashf st url size).2
  | bulk (codec : Codec) (hashf : String → String) (items : List Item)
      {st : SysState} : Reachable st → Reachable (processBulkUrls codec hashf st items).st
  | html (hashf : String → String) (parsed : Option ParsedImg)
      (origExt : String → Option String) (host : String) (html : String)
      {st : SysState} : Reachable st → Reachable (processHtmlTag hashf parsed origExt host st html).st
  | worker (codec : Codec) (origExt : String → Option String) (host : String) (t : TaskData)
      {st : SysState} : Reachable st → Reachable (processImageTask codec origExt host st t)
  | unlock (k : String) {st : SysState} : Reachable st → Reachable (releaseLock st k)
  | cacheExpire (p : String × StatusRecord → Bool) {st : SysState} :
      Reachable st → Reachable { st with cache := st.cache.filter p }
  | lockExpire (p : String → Bool) {st : SysState} :
      Reachable st → Reachable { st with locks := st.locks.filter p }

/-- No cached record carries the PROCESSING status. -/
def NoProcessing (st : SysState) : Prop :=
  ∀ e ∈ st.cache, e.2.status ≠ ProcessingStatus.processing

/-- Program counter of one dispatcher racing on a fixed fingerprint: yet
to act, past its status/artifact checks and about to attempt the lock,
lock acquired, PENDING written, or finished (recording whether its
`acquire_lock` returned true). -/
inductive RacePC
  | start
  | checked
  | locked
  | wrotePending
  | finished (won : Bool)
deriving DecidableEq, Repr

/-- A configuration of the race: the shared state, the number of tasks
enqueued for the fingerprint, and one program counter per dispatcher. -/
structure RaceConfig where
  st : SysState
  queued : Nat
  procs : List RacePC
deriving Repr

/-- Interleaved small-step semantics of N concurrent dispatch calls on one
fingerprint `h`.  Every Redis operation is atomic; between two operations
of one dispatcher any other dispatcher may run.  The Bool index marks
whether the step deletes `lock:<h>`.  A dispatcher may:
finish without ever touching the lock keyspace, with any cache/disk
effect (`exitNoLock`: the bulk cache-hit and in-progress returns, the
single-URL endpoint's inline processing writing disk artifacts or an
ERROR record, the bulk on-disk reprocessing path, parse failures);
take one of the two `/api/html` paths whose `create_picture_tag`
TypeError makes the handler delete `lock:<h>` — a COMPLETE cache hit
(`htmlCompleteRelease`) or an on-disk backfill writing COMPLETE first
(`htmlBackfillRelease`);
pass its status-record and artifact checks while no record and no
artifact for `h` exist (`check` — a record may also exist non-COMPLETE,
covering the html route to the lock);
then fail or win the atomic `acquire_lock`, and after a win write PENDING
and enqueue its task, as in `bulkItemStep` and `htmlAfterCacheMiss`. -/
inductive RaceStep (h : String) : Bool → RaceConfig → RaceConfig → Prop
  | exitNoLock (st st2 : SysState) (q : Nat) (l r : List RacePC) :
      st2.locks = st.locks →
      RaceStep h false ⟨st, q, l ++ RacePC.start :: r⟩ ⟨st2, q, l ++ RacePC.finished false :: r⟩
  | htmlCompleteRelease (st : SysState) (q : Nat) (l r : List RacePC) (cs : StatusRecord) :
      cacheGet st.cache h = some cs → cs.status = ProcessingStatus.complete →
      RaceStep h true ⟨st, q, l ++ RacePC.start :: r⟩
        ⟨releaseLock st h, q, l ++ RacePC.finished false :: r⟩
  | htmlBackfillRelease (st : SysState) (q : Nat) (l r : List RacePC)
      (origExt : String → Option String) (host : String) :
      st.disk.contains h = true →
      RaceStep h true ⟨st, q, l ++ RacePC.start :: r⟩
        ⟨releaseLock (setImageStatus st h .complete
            [("formats", .dict (getAvailableFormats host origExt h))]) h, q,
         l ++ RacePC.finished false :: r⟩
  | check (st : SysState) (q : Nat) (l r : List RacePC) :
      (∀ cs, cacheGet st.cache h = some cs → cs.status ≠ ProcessingStatus.complete) →
      st.disk.contains h = false →
      RaceStep h false ⟨st, q, l ++ RacePC.start :: r⟩ ⟨st, q, l ++ RacePC.checked :: r⟩
  | acqFail (st : SysState) (q : Nat) (l r : List RacePC) :
      (acquireLock st h).1 = false →
      RaceStep h false ⟨st, q, l ++ RacePC.checked :: r⟩ ⟨st, q, l ++ RacePC.finished false :: r⟩
  | acqOk (st : SysState) (q : Nat) (l r : List RacePC) :
      (acquireLock st h).1 = true →
      RaceStep h false ⟨st, q, l ++ RacePC.checked :: r⟩
        ⟨(acquireLock st h).2, q, l ++ RacePC.locked :: r⟩
  | writePending (st : SysState) (q : Nat) (l r : List RacePC) :
      RaceStep h false ⟨st, q, l ++ RacePC.locked :: r⟩
        ⟨setImageStatus st h .pending [], q, l ++ RacePC.wrotePending :: r⟩
  | enqueue (st : SysState) (q : Nat) (l r : List RacePC) :
      RaceStep h false ⟨st, q, l ++ RacePC.wrotePending :: r⟩
        ⟨st, q + 1, l ++ RacePC.finished true :: r⟩

/-- Runs in which no dispatcher releases the lock: reflexive-transitive
closure of the release-free steps. -/
inductive RaceReach (h : String) : RaceConfig → RaceConfig → Prop
  | refl (c : RaceConfig) : RaceReach h c c
  | tail {a b c : RaceConfig} : RaceReach h a b → RaceStep h false b c → RaceReach h a c

/-- Arbitrary runs: reflexive-transitive closure of all steps, including
the lock-releasing `/api/html` TypeError paths. -/
inductive RaceReachAny (h : String) : RaceConfig → RaceConfig → Prop
  | refl (c : RaceConfig) : RaceReachAny h c c
  | tail {fl : Bool} {a b c : RaceConfig} :
      RaceReachAny h a b → RaceStep h fl b c → RaceReachAny h a c

/-- Dispatchers whose `acquire_lock` has returned true so far. -/
def succCount (c : RaceConfig) : Nat :=
  c.procs.count RacePC.locked + c.procs.count RacePC.wrotePending
    + c.procs.count (RacePC.finished true)

/-- Helper: looking a requested hash up in the bulk-status map gives
exactly the cache's answer for that hash. -/
theorem bulkLookup_getBulkStatus (c : Cache) (hashes : List String) (k : String)
    (hmem : k ∈ hashes) : bulkLookup (getBulkStatus c hashes) k = cacheGet c k := by
  induction hashes with
  | nil => cases hmem
  | cons a tl ih =>
      by_cases hak : a = k
      · subst hak
        simp [getBulkStatus, bulkLookup, List.find?]
      · have hmem2 : k ∈ tl := by
          cases hmem with
          | head => exact absurd rfl hak
          | tail _ hk => exact hk
        have hne : (a == k) = false := beq_false_of_ne hak
        simpa [getBulkStatus, bulkLookup, List.find?, hne] using ih hmem2

/-- Helper: a list of optional values splits into its populated and its
absent entries. -/
theorem length_filter_isSome_add_isNone (l : List (String × Option StatusRecord)) :
    (l.filter (fun e => e.2.isSome)).length + (l.filter (fun e => e.2.isNone)).length = l.length := by
  induction l with
  | nil => rfl
  | cons a tl ih =>
      rcases a with ⟨k, v⟩
      cases v <;> simp [List.filter, ih] <;> omega

/-- C6: every message delivered by the queue consumer is acknowledged, even
when decoding or the registered callback fails — the `try/except` inside
`message.process()` swallows the exception, so the context manager exits
normally and acks; the task is never redelivered, requeued or
dead-lettered. -/
theorem queue_consumer_always_acks (decoded : Except String TaskData)
    (callback : TaskData → Except String Unit) :
    handleMessage decoded callback = AckAction.ack := by
  cases decoded with
  | error e => rfl
  | ok b =>
      show withProcess (match callback b with | .ok _ => .ok () | .error _ => .ok ()) = .ack
      cases callback b <;> rfl

/-- C7: `remove_duplicates` implements exactly the greedy clustering rule
of the claim: images are scanned in input order and one is discarded if and
only if `0.7 * (1 - hamming/64) + 0.3 * correlation` strictly exceeds the
threshold against at least one previously accepted representative; the
configured default threshold is 0.85. -/
theorem remove_duplicates_greedy_rule (α : Type) (phashD histC : α → α → ℚ) (t : ℚ)
    (images : List α) :
    removeDuplicates phashD histC t images = dedupSpec phashD histC t images
    ∧ COMBINED_THRESHOLD = 85 / 100 := by
  refine ⟨?_, rfl⟩
  have hstep : ∀ (acc : List α) (x : α),
      (if isDup phashD histC t acc x then acc else acc ++ [x]) =
      (if ∃ y ∈ acc, t < (7 : ℚ) / 10 * (1 - phashD x y / 64) + (3 : ℚ) / 10 * histC x y
       then acc else acc ++ [x]) := by
    intro acc x
    have hiff : isDup phashD histC t acc x = true ↔
        ∃ y ∈ acc, t < (7 : ℚ) / 10 * (1 - phashD x y / 64) + (3 : ℚ) / 10 * histC x y := by
      simp [isDup, combinedSim, List.any_eq_true]
    by_cases hex : ∃ y ∈ acc, t < (7 : ℚ) / 10 * (1 - phashD x y / 64) + (3 : ℚ) / 10 * histC x y
    · rw [if_pos (hiff.mpr hex), if_pos hex]
    · rw [if_neg (fun hh => hex (hiff.mp hh)), if_neg hex]
  have hfold : ∀ (l acc : List α),
      l.foldl (fun u x => if isDup phashD histC t u x then u else u ++ [x]) acc =
      l.foldl (fun u x =>
        if ∃ y ∈ u, t < (7 : ℚ) / 10 * (1 - phashD x y / 64) + (3 : ℚ) / 10 * histC x y
        then u else u ++ [x]) acc := by
    intro l
    induction l with
    | nil => intro acc; rfl
    | cons a tl ih =>
        intro acc
        simp only [List.foldl_cons]
        rw [hstep acc a]
        exact ih _
  exact hfold images []

/-- C9: bulk status lookup answers every requested fingerprint — each
requested hash maps to exactly the cache's record for it (or its absence),
and with N distinct fingerprints of which K are cached the map holds
exactly K populated entries and N − K absent ones.  The `Nodup` hypothesis
scopes the statement to where this list is the Python dict verbatim. -/
theorem get_bulk_status_entries (c : Cache) (hashes : List String)
    (hnd : hashes.Nodup) :
    (∀ k ∈ hashes, bulkLookup (getBulkStatus c hashes) k = cacheGet c k)
    ∧ ((getBulkStatus c hashes).filter (fun e => e.2.isSome)).length
        = (hashes.filter (fun k => (cacheGet c k).isSome)).length
    ∧ ((getBulkStatus c hashes).filter (fun e => e.2.isSome)).length
        + ((getBulkStatus c hashes).filter (fun e => e.2.isNone)).length
        = hashes.length := by
  refine ⟨fun k hk => bulkLookup_getBulkStatus c hashes k hk, ?_, ?_⟩
  · induction hashes with
    | nil => rfl
    | cons a tl ih =>
        rcases hih : cacheGet c a with _ | v <;>
          simp [getBulkStatus, List.filter, hih] at ih ⊢ <;>
          simpa using ih (List.Nodup.of_cons hnd)
  · have := length_filter_isSome_add_isNone (getBulkStatus c hashes)
    simpa [getBulkStatus] using this

/-- Witness for C9 at a concrete cache and hash list. -/
theorem get_bulk_status_entries_witness :
    bulkLookup (getBulkStatus [("a", (⟨ProcessingStatus.complete, []⟩ : StatusRecord))] ["a", "b"]) "a"
        = some ⟨ProcessingStatus.complete, []⟩
    ∧ ((getBulkStatus [("a", (⟨ProcessingStatus.complete, []⟩ : StatusRecord))] ["a", "b"]).filter
        (fun e => e.2.isSome)).length = 1 := by
  have hth := get_bulk_status_entries [("a", ⟨ProcessingStatus.complete, []⟩)] ["a", "b"] (by decide)
  refine ⟨(hth.1 "a" (by decide)).trans (by decide), hth.2.1.trans (by decide)⟩

/-- Helper: reading back the key just written by `set_image_status`. -/
theorem cacheGet_cacheSetEntry_self (c : Cache) (k : String) (r : StatusRecord) :
    cacheGet (cacheSetEntry c k r) k = some r := by
  simp [cacheGet, cacheSetEntry, List.find?]

/-- C2: a dispatch call that wins the lock (no cached record, no on-disk
artifact) writes a PENDING record, enqueues one task carrying the source
URL, the fingerprint and the optional target size, and answers "pending".
Both equalities hold for every codec oracle and their right-hand sides do
not mention it, so the codec pipeline is never consulted and the caller is
never blocked on a processing result. -/
theorem dispatch_lock_success_pending
    (codec : Codec) (hashf : String → String) (st : SysState) (item : Item)
    (origExt : String → Option String) (host htmlText : String) (img : ParsedImg)
    (hc : cacheGet st.cache (hashf item.url) = none)
    (hd : st.disk.contains (hashf item.url) = false)
    (hl : st.locks.contains (hashf item.url) = false)
    (hstat : ∀ cs, cacheGet st.cache (hashf img.url) = some cs → cs.status ≠ .complete)
    (hd2 : st.disk.contains (hashf img.url) = false)
    (hl2 : st.locks.contains (hashf img.url) = false) :
    processBulkUrls codec hashf st [item] =
      ⟨[{ original_url := item.url, status := "pending" }],
       [{ task_type := "process_image", url := item.url, url_hash := hashf item.url,
          size := item.size }],
       setImageStatus { st with locks := hashf item.url :: st.locks } (hashf item.url)
         .pending []⟩
    ∧ processHtmlTag hashf (some img) origExt host st htmlText =
      ⟨.ok { original_html := htmlText, status := "pending" },
       [{ task_type := "process_image", url := img.url, url_hash := hashf img.url, size := none }],
       setImageStatus { st with locks := hashf img.url :: st.locks } (hashf img.url)
         .pending []⟩ := by
  have hd' : hashf item.url ∉ st.disk := by simpa using hd
  have hl' : hashf item.url ∉ st.locks := by simpa using hl
  have hd2' : hashf img.url ∉ st.disk := by simpa using hd2
  have hl2' : hashf img.url ∉ st.locks := by simpa using hl2
  constructor
  · simp [processBulkUrls, getBulkStatus, bulkItemStep, bulkLookup, List.find?, hc,
      acquireLock, hd', hl']
  · rcases hcs : cacheGet st.cache (hashf img.url) with _ | cs
    · simp [processHtmlTag, hcs, htmlAfterCacheMiss, acquireLock, hd2', hl2']
    · have hne : cs.status ≠ .complete := hstat cs hcs
      simp [processHtmlTag, hcs, htmlAfterCacheMiss, acquireLock, hd2', hl2', hne]

/-- Witness for C2 on a concrete empty state. -/
theorem dispatch_lock_success_pending_witness :
    processBulkUrls (fun _ _ _ => Except.error "unused") (fun _ => "f") ⟨[], [], []⟩
        [⟨"u", some 80⟩] =
      ⟨[{ original_url := "u", status := "pending" }],
       [{ task_type := "process_image", url := "u", url_hash := "f", size := some 80 }],
       setImageStatus ⟨[], ["f"], []⟩ "f" .pending []⟩
    ∧ processHtmlTag (fun _ => "f") (some ⟨"u", []⟩) (fun _ => none) "H" ⟨[], [], []⟩ "<img>" =
      ⟨.ok { original_html := "<img>", status := "pending" },
       [{ task_type := "process_image", url := "u", url_hash := "f", size := none }],
       setImageStatus ⟨[], ["f"], []⟩ "f" .pending []⟩ :=
  dispatch_lock_success_pending (fun _ _ _ => Except.error "unused") (fun _ => "f")
    ⟨[], [], []⟩ ⟨"u", some 80⟩ (fun _ => none) "H" "<img>" ⟨"u", []⟩
    rfl rfl rfl (fun _ hcs => by cases hcs) rfl rfl

/-- C3 (failing evaluation): a dispatch on a COMPLETE fingerprint returns
the cached result unchanged with no side effects on the `/api/url` and
`/api/url/bulk` dispatchers, but the `/api/html` dispatcher crashes on the
same state: `create_picture_tag` is called with three arguments against a
two-parameter declaration, the `TypeError` is caught by the handler, the
fingerprint's lock is deleted, and the caller receives HTTP 400 instead of
the cached result. -/
theorem html_complete_cache_hit_fails :
    processImageUrl (fun _ _ _ => Except.error "unused") (fun _ => "f")
        ⟨[("f", ⟨ProcessingStatus.complete, []⟩)], ["f"], []⟩ "u" none =
      (.ok (completeResponse "u" []), ⟨[("f", ⟨ProcessingStatus.complete, []⟩)], ["f"], []⟩)
    ∧ processBulkUrls (fun _ _ _ => Except.error "unused") (fun _ => "f")
        ⟨[("f", ⟨ProcessingStatus.complete, []⟩)], ["f"], []⟩ [⟨"u", none⟩] =
      ⟨[completeResponse "u" []], [], ⟨[("f", ⟨ProcessingStatus.complete, []⟩)], ["f"], []⟩⟩
    ∧ processHtmlTag (fun _ => "f") (some ⟨"u", []⟩) (fun _ => none) "H"
        ⟨[("f", ⟨ProcessingStatus.complete, []⟩)], ["f"], []⟩ "<img>" =
      ⟨.error 400, [], ⟨[("f", ⟨ProcessingStatus.complete, []⟩)], [], []⟩⟩ := by
  refine ⟨by decide, by decide, by decide⟩

/-- C4 (counterexample): on codec success the worker writes a COMPLETE
record whose metadata carries the artifact location and the format list
but no `dimensions` entry, contradicting the claim that the source
dimensions are included. -/
theorem worker_complete_metadata_lacks_dimensions :
    (cacheGet (processImageTask (fun _ _ _ => Except.ok ⟨"O", [], []⟩) (fun _ => none) "H"
        ⟨[], [], []⟩ ⟨"process_image", "u", "f", none⟩).cache "f").map
      (fun r => (r.status, mdGet r.metadata "dimensions"))
      = some (ProcessingStatus.complete, none) := by decide

/-- C4 (amended): for every consumed task the worker writes COMPLETE with
the generated artifact location and the available-format list on codec
success, and ERROR with the human-readable error text on codec failure —
the source dimensions are not part of the success metadata. -/
theorem worker_terminal_writes (codec : Codec) (origExt : String → Option String)
    (host : String) (st : SysState) (t : TaskData) :
    (∀ r, codec t.url t.url_hash t.size = .ok r →
       cacheGet (processImageTask codec origExt host st t).cache t.url_hash =
         some ⟨.complete,
           [("optimized_url", .s (getOptimizedUrl host t.url_hash)),
            ("formats", .dict (getAvailableFormats host origExt t.url_hash))]⟩)
    ∧ (∀ e, codec t.url t.url_hash t.size = .error e →
       cacheGet (processImageTask codec origExt host st t).cache t.url_hash =
         some ⟨.error, [("error", .s e)]⟩) := by
  constructor
  · intro r hr
    simp [processImageTask, hr, setImageStatus, cacheGet_cacheSetEntry_self]
  · intro e he
    simp [processImageTask, he, setImageStatus, cacheGet_cacheSetEntry_self]

/-- Witness for the amended C4 at concrete succeeding and failing tasks. -/
theorem worker_terminal_writes_witness :
    cacheGet (processImageTask (fun _ _ _ => Except.ok ⟨"O", [], []⟩) (fun _ => none) "H"
        ⟨[], [], []⟩ ⟨"process_image", "u", "f", none⟩).cache "f" =
      some ⟨.complete,
        [("optimized_url", .s (getOptimizedUrl "H" "f")),
         ("formats", .dict (getAvailableFormats "H" (fun _ => none) "f"))]⟩
    ∧ cacheGet (processImageTask (fun _ _ _ => Except.error "boom") (fun _ => none) "H"
        ⟨[], [], []⟩ ⟨"process_image", "u", "f", none⟩).cache "f" =
      some ⟨.error, [("error", .s "boom")]⟩ :=
  ⟨(worker_terminal_writes (fun _ _ _ => Except.ok ⟨"O", [], []⟩) (fun _ => none) "H"
      ⟨[], [], []⟩ ⟨"process_image", "u", "f", none⟩).1 ⟨"O", [], []⟩ rfl,
   (worker_terminal_writes (fun _ _ _ => Except.error "boom") (fun _ => none) "H"
      ⟨[], [], []⟩ ⟨"process_image", "u", "f", none⟩).2 "boom" rfl⟩

/-- C5 (counterexample): the HTML dispatcher answers "processing" on lock
failure even though a status record exists whose status is "pending" — it
never re-reads the record, contradicting the claim that the record's
status is returned when one exists. -/
theorem html_lock_contention_ignores_record :
    processHtmlTag (fun _ => "f") (some ⟨"u", []⟩) (fun _ => none) "H"
        ⟨[("f", ⟨ProcessingStatus.pending, []⟩)], ["f"], []⟩ "<img>" =
      ⟨.ok { original_html := "<img>", status := "processing" }, [],
       ⟨[("f", ⟨ProcessingStatus.pending, []⟩)], ["f"], []⟩⟩
    ∧ cacheGet ([("f", ⟨ProcessingStatus.pending, []⟩)] : Cache) "f" =
        some ⟨ProcessingStatus.pending, []⟩
    ∧ "processing" ≠ ProcessingStatus.pending.toStr := by
  refine ⟨by decide, by decide, by decide⟩

/-- C5 (amended): on lock failure the bulk dispatcher re-reads the current
status record and answers its status, falling back to the generic
"processing" when no record exists; the HTML dispatcher answers the
generic "processing" unconditionally without re-reading.  Neither path
enqueues a task or changes the shared state. -/
theorem lock_contention_status
    (codec : Codec) (snapshot : List (String × Option StatusRecord)) (acc : BulkAcc)
    (item : Item) (k : String)
    (hashf : String → String) (img : ParsedImg) (origExt : String → Option String)
    (host htmlText : String) (st : SysState)
    (hs : bulkLookup snapshot k = none)
    (hd : acc.st.disk.contains k = false)
    (hl : acc.st.locks.contains k = true)
    (hstat : ∀ cs, cacheGet st.cache (hashf img.url) = some cs → cs.status ≠ .complete)
    (hd2 : st.disk.contains (hashf img.url) = false)
    (hl2 : st.locks.contains (hashf img.url) = true) :
    bulkItemStep codec snapshot acc item k =
      { acc with responses := acc.responses ++
          [{ original_url := item.url,
             status := ((cacheGet acc.st.cache k).map (fun r => r.status.toStr)).getD "processing" }] }
    ∧ processHtmlTag hashf (some img) origExt host st htmlText =
      ⟨.ok { original_html := htmlText, status := "processing" }, [], st⟩ := by
  have hd' : k ∉ acc.st.disk := by simpa using hd
  have hl' : k ∈ acc.st.locks := by simpa using hl
  have hd2' : hashf img.url ∉ st.disk := by simpa using hd2
  have hl2' : hashf img.url ∈ st.locks := by simpa using hl2
  constructor
  · simp [bulkItemStep, hs, acquireLock, hd', hl']
  · rcases hcs : cacheGet st.cache (hashf img.url) with _ | cs
    · simp [processHtmlTag, hcs, htmlAfterCacheMiss, acquireLock, hd2', hl2']
    · have hne : cs.status ≠ .complete := hstat cs hcs
      simp [processHtmlTag, hcs, htmlAfterCacheMiss, acquireLock, hd2', hl2', hne]

/-- Witness for the amended C5: lock held, a PENDING record present in the
current cache but absent from the bulk snapshot. -/
theorem lock_contention_status_witness :
    bulkItemStep (fun _ _ _ => Except.error "unused") [("f", none)]
        ⟨[], [], ⟨[("f", ⟨ProcessingStatus.pending, []⟩)], ["f"], []⟩⟩ ⟨"u", none⟩ "f" =
      ⟨[{ original_url := "u", status := ProcessingStatus.pending.toStr }], [],
       ⟨[("f", ⟨ProcessingStatus.pending, []⟩)], ["f"], []⟩⟩
    ∧ processHtmlTag (fun _ => "f") (some ⟨"u", []⟩) (fun _ => none) "H"
        ⟨[("f", ⟨ProcessingStatus.pending, []⟩)], ["f"], []⟩ "<img>" =
      ⟨.ok { original_html := "<img>", status := "processing" }, [],
       ⟨[("f", ⟨ProcessingStatus.pending, []⟩)], ["f"], []⟩⟩ := by
  have hth := lock_contention_status (fun _ _ _ => Except.error "unused") [("f", none)]
    ⟨[], [], ⟨[("f", ⟨ProcessingStatus.pending, []⟩)], ["f"], []⟩⟩ ⟨"u", none⟩ "f"
    (fun _ => "f") ⟨"u", []⟩ (fun _ => none) "H" "<img>"
    ⟨[("f", ⟨ProcessingStatus.pending, []⟩)], ["f"], []⟩
    rfl rfl rfl (fun cs hcs => by cases hcs; decide) rfl rfl
  exact ⟨hth.1.trans (by decide), hth.2⟩

/-- Helper: the greedy fold only ever appends, so it returns a subsequence
of the accumulator followed by the input. -/
theorem dedup_foldl_sublist {α : Type} (p : List α → α → Bool) :
    ∀ (l acc : List α),
      (l.foldl (fun u x => if p u x then u else u ++ [x]) acc).Sublist (acc ++ l) := by
  intro l
  induction l with
  | nil => intro acc; simp
  | cons a tl ih =>
      intro acc
      simp only [List.foldl_cons]
      cases hp : p acc a
      · have := ih (acc ++ [a])
        simp only [hp, Bool.false_eq_true, if_false]
        simpa [List.append_assoc] using this
      · simp only [hp, if_true]
        exact (ih acc).trans ((List.sublist_cons_self a tl).append_left acc)

/-- Helper: when every combined score is at most the threshold, nothing is
ever discarded. -/
theorem dedup_foldl_keeps_all {α : Type} (phashD histC : α → α → ℚ) (t : ℚ)
    (hb : ∀ a b, combinedSim (phashD a b) (histC a b) ≤ t) :
    ∀ (l acc : List α),
      l.foldl (fun u x => if isDup phashD histC t u x then u else u ++ [x]) acc = acc ++ l := by
  have hfalse : ∀ (u : List α) (x : α), isDup phashD histC t u x = false := by
    intro u x
    rw [Bool.eq_false_iff]
    intro htrue
    rw [isDup, List.any_eq_true] at htrue
    obtain ⟨y, _, hlt⟩ := htrue
    rw [decide_eq_true_eq] at hlt
    exact absurd hlt (not_lt.mpr (hb x y))
  intro l
  induction l with
  | nil => intro acc; simp
  | cons a tl ih =>
      intro acc
      simp only [List.foldl_cons]
      rw [hfalse acc a]
      simp only [Bool.false_eq_true, if_false]
      rw [ih (acc ++ [a])]
      simp

/-- Helper: when every combined score strictly exceeds the threshold, the
first accepted representative absorbs everything after it. -/
theorem dedup_foldl_drops_all {α : Type} (phashD histC : α → α → ℚ) (t : ℚ)
    (hpos : ∀ a b, t < combinedSim (phashD a b) (histC a b)) :
    ∀ (l : List α) (x : α),
      l.foldl (fun u y => if isDup phashD histC t u y then u else u ++ [y]) [x] = [x] := by
  have htrue : ∀ (x y : α), isDup phashD histC t [x] y = true := by
    intro x y
    rw [isDup, List.any_eq_true]
    exact ⟨x, List.mem_singleton_self x, decide_eq_true (hpos y x)⟩
  intro l
  induction l with
  | nil => intro x; rfl
  | cons a tl ih =>
      intro x
      simp only [List.foldl_cons, htrue, if_true]
      exact ih x

/-- C8 (amended): `remove_duplicates` always returns an order-preserving
subsequence of its input; with threshold 1.0 it returns the input
unchanged provided the features stay in their ranges (hamming distance
nonnegative, correlation at most 1); with threshold 0.0 it returns exactly
the first image provided every pairwise combined score is strictly
positive (which the feature ranges alone do not guarantee).  Each premise
conditions only its own clause. -/
theorem dedup_order_and_extremes (α : Type) (phashD histC : α → α → ℚ) (t : ℚ)
    (images : List α) (x : α) (xs : List α) :
    (removeDuplicates phashD histC t images).Sublist images
    ∧ ((∀ a b, 0 ≤ phashD a b) → (∀ a b, histC a b ≤ 1) →
        removeDuplicates phashD histC 1 images = images)
    ∧ ((∀ a b, 0 < combinedSim (phashD a b) (histC a b)) →
        removeDuplicates phashD histC 0 (x :: xs) = [x]) := by
  refine ⟨?_, ?_, ?_⟩
  · simpa using dedup_foldl_sublist (isDup phashD histC t) images []
  · intro hpd hhc
    have hb : ∀ a b, combinedSim (phashD a b) (histC a b) ≤ 1 := by
      intro a b
      have h1 : 0 ≤ phashD a b / 64 := div_nonneg (hpd a b) (by norm_num)
      have h2 := hhc a b
      rw [combinedSim]
      linarith
    simpa using dedup_foldl_keeps_all phashD histC 1 hb images []
  · intro hpos
    have hfirst : isDup phashD histC 0 [] x = false := rfl
    rw [removeDuplicates, List.foldl_cons, hfirst]
    simpa using dedup_foldl_drops_all phashD histC 0 hpos xs x

/-- C8 (counterexample): with in-range feature values (hamming distance
64 of at most 64, correlation −1 of at least −1) the combined score is
−0.3 ≤ 0, so at threshold 0.0 the second image is kept as well — the
result is not just the first image. -/
theorem dedup_threshold_zero_keeps_second :
    removeDuplicates (fun _ _ => (64 : ℚ)) (fun _ _ => (-1 : ℚ)) 0 ([0, 1] : List ℕ) = [0, 1]
    ∧ removeDuplicates (fun _ _ => (64 : ℚ)) (fun _ _ => (-1 : ℚ)) 0 ([0, 1] : List ℕ) ≠ [0]
    ∧ (0 : ℚ) ≤ 64 ∧ (-1 : ℚ) ≤ 1 := by
  refine ⟨?_, ?_, by norm_num, by norm_num⟩ <;>
    norm_num [removeDuplicates, isDup, combinedSim]

/-- Witness for the amended C8 at concrete feature maps and images. -/
theorem dedup_order_and_extremes_witness :
    (removeDuplicates (fun (_ _ : ℕ) => (0 : ℚ)) (fun _ _ => (1 : ℚ)) (1 / 2) [5, 6]).Sublist [5, 6]
    ∧ removeDuplicates (fun (_ _ : ℕ) => (0 : ℚ)) (fun _ _ => (1 : ℚ)) 1 [5, 6] = [5, 6]
    ∧ removeDuplicates (fun (_ _ : ℕ) => (0 : ℚ)) (fun _ _ => (1 : ℚ)) 0 (5 :: [6]) = [5] := by
  have hth := dedup_order_and_extremes ℕ (fun _ _ => 0) (fun _ _ => 1) (1 / 2) [5, 6] 5 [6]
  exact ⟨hth.1, hth.2.1 (fun _ _ => le_refl 0) (fun _ _ => le_refl 1),
    hth.2.2 (fun _ _ => by norm_num [combinedSim])⟩

/-- Helper: `set_image_status` with a non-PROCESSING status preserves the
no-PROCESSING invariant. -/
theorem noProcessing_setImageStatus {st : SysState} {k : String} {s : ProcessingStatus}
    {md : Metadata} (hnp : NoProcessing st) (hs : s ≠ ProcessingStatus.processing) :
    NoProcessing (setImageStatus st k s md) := by
  intro e he
  rcases List.mem_cons.mp he with he1 | he2
  · rw [he1]
    exact hs
  · exact hnp e (List.mem_of_mem_filter he2)

/-- Helper: the inline-processing tail writes only ERROR records. -/
theorem noProcessing_processUrlInline (codec : Codec) (st : SysState) (url k : String)
    (size : Option Nat) (hnp : NoProcessing st) :
    NoProcessing (processUrlInline codec st url k size).2 := by
  unfold processUrlInline
  cases codec url k size with
  | ok r => exact hnp
  | error e => exact noProcessing_setImageStatus hnp (fun hcon => by cases hcon)

/-- Helper: the single-URL endpoint writes only ERROR records. -/
theorem noProcessing_processImageUrl (codec : Codec) (hashf : String → String)
    (st : SysState) (url : String) (size : Option Nat) (hnp : NoProcessing st) :
    NoProcessing (processImageUrl codec hashf st url size).2 := by
  unfold processImageUrl
  show NoProcessing (match cacheGet st.cache (hashf url) with
    | some cs =>
        if cs.status = ProcessingStatus.complete then (.ok (completeResponse url cs.metadata), st)
        else processUrlInline codec st url (hashf url) size
    | none => processUrlInline codec st url (hashf url) size :
      Except Nat ImageResponse × SysState).2
  split
  · split
    · exact hnp
    · exact noProcessing_processUrlInline codec st url (hashf url) size hnp
  · exact noProcessing_processUrlInline codec st url (hashf url) size hnp

/-- Helper: one bulk-loop iteration writes only ERROR or PENDING records. -/
theorem noProcessing_bulkItemStep (codec : Codec) (snapshot : List (String × Option StatusRecord))
    (acc : BulkAcc) (item : Item) (k : String) (hnp : NoProcessing acc.st) :
    NoProcessing (bulkItemStep codec snapshot acc item k).st := by
  unfold bulkItemStep
  split
  · split <;> exact hnp
  · split
    · split
      · exact hnp
      · exact noProcessing_setImageStatus hnp (fun hcon => by cases hcon)
    · split
      · exact hnp
      · rename_i st1 heq
        have hcache : st1.cache = acc.st.cache := by
          unfold acquireLock at heq
          split at heq
          · cases heq
          · cases heq
            rfl
        exact noProcessing_setImageStatus (fun e he => hnp e (hcache ▸ he))
          (fun hcon => by cases hcon)

/-- Helper: the bulk endpoint writes only ERROR or PENDING records. -/
theorem noProcessing_processBulkUrls (codec : Codec) (hashf : String → String)
    (st : SysState) (items : List Item) (hnp : NoProcessing st) :
    NoProcessing (processBulkUrls codec hashf st items).st := by
  unfold processBulkUrls
  have hgen : ∀ (pairs : List (Item × String)) (acc : BulkAcc), NoProcessing acc.st →
      NoProcessing ((pairs.foldl (fun a p =>
        bulkItemStep codec (getBulkStatus st.cache (items.map fun it => hashf it.url)) a p.1 p.2)
        acc).st) := by
    intro pairs
    induction pairs with
    | nil => intro acc ha; exact ha
    | cons p tl ih =>
        intro acc ha
        exact ih _ (noProcessing_bulkItemStep _ _ acc p.1 p.2 ha)
  exact hgen _ ⟨[], [], st⟩ hnp

/-- Helper: the HTML cache-miss tail writes only COMPLETE or PENDING
records. -/
theorem noProcessing_htmlAfterCacheMiss (origExt : String → Option String) (host : String)
    (st : SysState) (html : String) (img : ParsedImg) (k : String) (hnp : NoProcessing st) :
    NoProcessing (htmlAfterCacheMiss origExt host st html img k).st := by
  unfold htmlAfterCacheMiss
  split
  · exact fun e he =>
      noProcessing_setImageStatus hnp (fun hcon => by cases hcon) e he
  · split
    · exact hnp
    · rename_i st1 heq
      have hcache : st1.cache = st.cache := by
        unfold acquireLock at heq
        split at heq
        · cases heq
        · cases heq
          rfl
      exact noProcessing_setImageStatus (fun e he => hnp e (hcache ▸ he))
        (fun hcon => by cases hcon)

/-- Helper: the HTML endpoint never writes a PROCESSING record. -/
theorem noProcessing_processHtmlTag (hashf : String → String) (parsed : Option ParsedImg)
    (origExt : String → Option String) (host : String) (st : SysState) (html : String)
    (hnp : NoProcessing st) :
    NoProcessing (processHtmlTag hashf parsed origExt host st html).st := by
  unfold processHtmlTag
  cases parsed with
  | none => exact hnp
  | some img =>
      show NoProcessing (match cacheGet st.cache (hashf img.url) with
        | some cs =>
            if cs.status = ProcessingStatus.complete then
              ⟨.error 400, [], releaseLock st (hashf img.url)⟩
            else htmlAfterCacheMiss origExt host st html img (hashf img.url)
        | none => htmlAfterCacheMiss origExt host st html img (hashf img.url) : HtmlResult).st
      split
      · split
        · exact hnp
        · exact noProcessing_htmlAfterCacheMiss origExt host st html img _ hnp
      · exact noProcessing_htmlAfterCacheMiss origExt host st html img _ hnp

/-- Helper: the worker writes only COMPLETE or ERROR records. -/
theorem noProcessing_processImageTask (codec : Codec) (origExt : String → Option String)
    (host : String) (st : SysState) (t : TaskData) (hnp : NoProcessing st) :
    NoProcessing (processImageTask codec origExt host st t) := by
  unfold processImageTask
  cases codec t.url t.url_hash t.size with
  | ok r => exact noProcessing_setImageStatus hnp (fun hcon => by cases hcon)
  | error e => exact noProcessing_setImageStatus hnp (fun hcon => by cases hcon)

/-- Helper: no operation of the system ever stores a PROCESSING record. -/
theorem reachable_noProcessing {st : SysState} (hr : Reachable st) : NoProcessing st := by
  induction hr with
  | init disk => intro e he; cases he
  | singleUrl codec hashf url size ha ih =>
      exact noProcessing_processImageUrl codec hashf _ url size ih
  | bulk codec hashf items ha ih => exact noProcessing_processBulkUrls codec hashf _ items ih
  | html hashf parsed origExt host html ha ih =>
      exact noProcessing_processHtmlTag hashf parsed origExt host _ html ih
  | worker codec origExt host t ha ih =>
      exact noProcessing_processImageTask codec origExt host _ t ih
  | unlock k ha ih => exact ih
  | cacheExpire p ha ih => exact fun e he => ih e (List.mem_of_mem_filter he)
  | lockExpire p ha ih => exact ih

/-- C10: `get_queue_length` counts PROCESSING records, but no operation of
the codebase ever writes one (only PENDING, COMPLETE and ERROR are
written), so in every reachable state it returns 0 and the health
endpoint's reported in-flight count is always 0. -/
theorem queue_length_always_zero (st : SysState) (hr : Reachable st) :
    getQueueLength st = 0 ∧ ∀ mc, (healthCheck st mc).processing = 0 := by
  have hnp := reachable_noProcessing hr
  have hz : getQueueLength st = 0 := by
    rw [getQueueLength, List.length_eq_zero, List.filter_eq_nil_iff]
    intro e he
    simpa using hnp e he
  exact ⟨hz, fun mc => hz⟩

/-- Witness for C10 at a concrete reachable state holding a COMPLETE
record. -/
theorem queue_length_always_zero_witness :
    getQueueLength (processImageTask (fun _ _ _ => Except.ok ⟨"O", [], []⟩) (fun _ => none) "H"
        ⟨[], [], []⟩ ⟨"process_image", "u", "f", none⟩) = 0
    ∧ (healthCheck (processImageTask (fun _ _ _ => Except.ok ⟨"O", [], []⟩) (fun _ => none) "H"
        ⟨[], [], []⟩ ⟨"process_image", "u", "f", none⟩) 3).processing = 0 := by
  have hr : Reachable (processImageTask (fun _ _ _ => Except.ok ⟨"O", [], []⟩) (fun _ => none) "H"
      ⟨[], [], []⟩ ⟨"process_image", "u", "f", none⟩) :=
    Reachable.worker _ _ _ _ (Reachable.init [])
  exact ⟨(queue_length_always_zero _ hr).1, (queue_length_always_zero _ hr).2 3⟩

/-- Dispatchers that finished having won the lock. -/
def finishedTrueCount (c : RaceConfig) : Nat := c.procs.count (RacePC.finished true)

/-- Contribution of one program counter to `succCount`. -/
def pcWin : RacePC → Nat
  | .locked => 1
  | .wrotePending => 1
  | .finished true => 1
  | _ => 0

/-- Contribution of one program counter to `finishedTrueCount`. -/
def pcFin : RacePC → Nat
  | .finished true => 1
  | _ => 0

/-- Helper: counting in a list with one distinguished middle element. -/
theorem count_append_cons (l r : List RacePC) (x a : RacePC) :
    (l ++ x :: r).count a = l.count a + r.count a + (if x = a then 1 else 0) := by
  by_cases hxa : x = a
  · subst hxa
    simp [List.count_append, List.count_cons] <;> omega
  · have hxa2 : ¬ a = x := fun hh => hxa hh.symm
    simp [List.count_append, List.count_cons, hxa, hxa2] <;> omega

/-- Helper: `succCount` ignores the shared state and the queue counter and
splits over a distinguished middle program counter. -/
theorem succCount_append_cons (st st2 : SysState) (q q2 : Nat) (l r : List RacePC) (x : RacePC) :
    succCount ⟨st, q, l ++ x :: r⟩ =
      succCount ⟨st2, q2, l ++ r⟩ + pcWin x := by
  rw [succCount, succCount]
  rw [count_append_cons, count_append_cons, count_append_cons]
  simp only [List.count_append]
  cases x with
  | finished b => cases b <;> simp [pcWin] <;> omega
  | start => simp [pcWin]
  | checked => simp [pcWin]
  | locked => simp [pcWin] <;> omega
  | wrotePending => simp [pcWin] <;> omega

/-- Helper: `finishedTrueCount` ignores the shared state and the queue
counter and splits over a distinguished middle program counter. -/
theorem finishedTrueCount_append_cons (st st2 : SysState) (q q2 : Nat) (l r : List RacePC)
    (x : RacePC) :
    finishedTrueCount ⟨st, q, l ++ x :: r⟩ =
      finishedTrueCount ⟨st2, q2, l ++ r⟩ + pcFin x := by
  rw [finishedTrueCount, finishedTrueCount, count_append_cons]
  simp only [List.count_append]
  cases x with
  | finished b => cases b <;> simp [pcFin]
  | start => simp [pcFin]
  | checked => simp [pcFin]
  | locked => simp [pcFin]
  | wrotePending => simp [pcFin]

/-- The race invariant: at most one dispatcher is ever past a successful
`acquire_lock`, none is past it while the lock key is absent, and the
number of enqueued tasks equals the number of dispatchers that finished as
winners. -/
def RaceInv (h : String) (c : RaceConfig) : Prop :=
  succCount c ≤ 1
  ∧ (c.st.locks.contains h = false → succCount c = 0)
  ∧ c.queued = finishedTrueCount c

/-- Helper: every release-free interleaved step preserves the race
invariant (the lock-releasing `/api/html` TypeError steps do not, which is
exactly how the original claim fails). -/
theorem raceStep_inv {h : String} {a b : RaceConfig} (hs : RaceStep h false a b)
    (hi : RaceInv h a) : RaceInv h b := by
  obtain ⟨h1, h2, h3⟩ := hi
  cases hs with
  | exitNoLock st st2 q l r hlk =>
      refine ⟨?_, ?_, ?_⟩
      · rw [succCount_append_cons st2 st q q l r (RacePC.finished false)]
        rw [succCount_append_cons st st q q l r RacePC.start] at h1
        simpa [pcWin] using h1
      · intro hf
        rw [hlk] at hf
        rw [succCount_append_cons st2 st q q l r (RacePC.finished false)]
        have h0 := h2 hf
        rw [succCount_append_cons st st q q l r RacePC.start] at h0
        simpa [pcWin] using h0
      · rw [finishedTrueCount_append_cons st2 st q q l r (RacePC.finished false)]
        rw [finishedTrueCount_append_cons st st q q l r RacePC.start] at h3
        simpa [pcFin] using h3
  | check st q l r hrec hdk =>
      refine ⟨?_, ?_, ?_⟩
      · rw [succCount_append_cons st st q q l r RacePC.checked]
        rw [succCount_append_cons st st q q l r RacePC.start] at h1
        simpa [pcWin] using h1
      · intro hf
        rw [succCount_append_cons st st q q l r RacePC.checked]
        have h0 := h2 hf
        rw [succCount_append_cons st st q q l r RacePC.start] at h0
        simpa [pcWin] using h0
      · rw [finishedTrueCount_append_cons st st q q l r RacePC.checked]
        rw [finishedTrueCount_append_cons st st q q l r RacePC.start] at h3
        simpa [pcFin] using h3
  | acqFail st q l r hfail =>
      refine ⟨?_, ?_, ?_⟩
      · rw [succCount_append_cons st st q q l r (RacePC.finished false)]
        rw [succCount_append_cons st st q q l r RacePC.checked] at h1
        simpa [pcWin] using h1
      · intro hf
        rw [succCount_append_cons st st q q l r (RacePC.finished false)]
        have h0 := h2 hf
        rw [succCount_append_cons st st q q l r RacePC.checked] at h0
        simpa [pcWin] using h0
      · rw [finishedTrueCount_append_cons st st q q l r (RacePC.finished false)]
        rw [finishedTrueCount_append_cons st st q q l r RacePC.checked] at h3
        simpa [pcFin] using h3
  | acqOk st q l r hok =>
      have hfree : st.locks.contains h = false := by
        rcases hcb : st.locks.contains h with _ | _
        · rfl
        · exfalso
          unfold acquireLock at hok
          rw [hcb] at hok
          simp at hok
      have h0 := h2 hfree
      rw [succCount_append_cons st st q q l r RacePC.checked] at h0
      refine ⟨?_, ?_, ?_⟩
      · rw [succCount_append_cons (acquireLock st h).2 st q q l r RacePC.locked]
        simp [pcWin] at h0 ⊢
        omega
      · intro hf
        exfalso
        have hfree2 : h ∉ st.locks := by simpa using hfree
        simp [acquireLock, hfree2] at hf
      · rw [finishedTrueCount_append_cons (acquireLock st h).2 st q q l r RacePC.locked]
        rw [finishedTrueCount_append_cons st st q q l r RacePC.checked] at h3
        simpa [pcFin] using h3
  | writePending st q l r =>
      refine ⟨?_, ?_, ?_⟩
      · rw [succCount_append_cons (setImageStatus st h .pending []) st q q l r RacePC.wrotePending]
        rw [succCount_append_cons st st q q l r RacePC.locked] at h1
        simpa [pcWin] using h1
      · intro hf
        have hf2 : st.locks.contains h = false := hf
        rw [succCount_append_cons (setImageStatus st h .pending []) st q q l r RacePC.wrotePending]
        have h0 := h2 hf2
        rw [succCount_append_cons st st q q l r RacePC.locked] at h0
        simpa [pcWin] using h0
      · rw [finishedTrueCount_append_cons (setImageStatus st h .pending []) st q q l r
          RacePC.wrotePending]
        rw [finishedTrueCount_append_cons st st q q l r RacePC.locked] at h3
        simpa [pcFin] using h3
  | enqueue st q l r =>
      refine ⟨?_, ?_, ?_⟩
      · rw [succCount_append_cons st st (q + 1) q l r (RacePC.finished true)]
        rw [succCount_append_cons st st q q l r RacePC.wrotePending] at h1
        simpa [pcWin] using h1
      · intro hf
        rw [succCount_append_cons st st (q + 1) q l r (RacePC.finished true)]
        have h0 := h2 hf
        rw [succCount_append_cons st st q q l r RacePC.wrotePending] at h0
        simpa [pcWin] using h0
      · rw [finishedTrueCount_append_cons st st (q + 1) q l r (RacePC.finished true)]
        rw [finishedTrueCount_append_cons st st q q l r RacePC.wrotePending] at h3
        simp [pcFin] at h3 ⊢
        omega

/-- Helper: the race invariant holds in every configuration reachable from
N dispatchers all at their start, with no task yet enqueued. -/
theorem raceReach_inv (h : String) (st0 : SysState) (n : Nat) (c : RaceConfig)
    (hr : RaceReach h ⟨st0, 0, List.replicate n RacePC.start⟩ c) : RaceInv h c := by
  induction hr with
  | refl =>
      refine ⟨?_, fun _ => ?_, ?_⟩ <;>
        simp [succCount, finishedTrueCount, RaceInv, List.count_replicate]
  | tail hab hbc ih => exact raceStep_inv hbc ih

/-- C1 (counterexample): the claim as stated is false of the program.  A
concrete interleaving of four dispatch calls on one fingerprint from a
clean state — a bulk call that checks, wins the lock, writes PENDING and
enqueues; a second bulk call whose checks pass early; a `/api/url` call
that processes inline and writes the disk artifacts; then a `/api/html`
call that sees the artifacts, backfills COMPLETE and, through the
`create_picture_tag` TypeError handler, deletes the first caller's lock
(main.py:396); after which the second bulk call's `acquire_lock` returns
true and it enqueues — ends with two dispatchers having received `true`
and two tasks enqueued, with no lock expiry and no infrastructure
failure. -/
theorem dispatch_race_two_tasks_reachable :
    RaceReachAny "f" ⟨⟨[], [], []⟩, 0, List.replicate 4 RacePC.start⟩
      ⟨⟨[("f", ⟨ProcessingStatus.pending, []⟩)], ["f"], ["f"]⟩, 2,
       [RacePC.finished true, RacePC.finished true, RacePC.finished false,
        RacePC.finished false]⟩
    ∧ succCount ⟨⟨[("f", ⟨ProcessingStatus.pending, []⟩)], ["f"], ["f"]⟩, 2,
        [RacePC.finished true, RacePC.finished true, RacePC.finished false,
         RacePC.finished false]⟩ = 2
    ∧ finishedTrueCount ⟨⟨[("f", ⟨ProcessingStatus.pending, []⟩)], ["f"], ["f"]⟩, 2,
        [RacePC.finished true, RacePC.finished true, RacePC.finished false,
         RacePC.finished false]⟩ = 2
    ∧ (⟨⟨[("f", ⟨ProcessingStatus.pending, []⟩)], ["f"], ["f"]⟩, 2,
        [RacePC.finished true, RacePC.finished true, RacePC.finished false,
         RacePC.finished false]⟩ : RaceConfig).queued = 2 := by
  refine ⟨?_, by decide, by decide, by decide⟩
  exact
    .tail (.tail (.tail (.tail (.tail (.tail (.tail (.tail (.tail (.tail (.refl _)
      (.check ⟨[], [], []⟩ 0 [] [RacePC.start, RacePC.start, RacePC.start]
        (fun cs hcs => by simp [cacheGet] at hcs) rfl))
      (.check ⟨[], [], []⟩ 0 [RacePC.checked] [RacePC.start, RacePC.start]
        (fun cs hcs => by simp [cacheGet] at hcs) rfl))
      (.acqOk ⟨[], [], []⟩ 0 [] [RacePC.checked, RacePC.start, RacePC.start] rfl))
      (.writePending ⟨[], ["f"], []⟩ 0 [] [RacePC.checked, RacePC.start, RacePC.start]))
      (.enqueue ⟨[("f", ⟨ProcessingStatus.pending, []⟩)], ["f"], []⟩ 0 []
        [RacePC.checked, RacePC.start, RacePC.start]))
      (.exitNoLock ⟨[("f", ⟨ProcessingStatus.pending, []⟩)], ["f"], []⟩
        ⟨[("f", ⟨ProcessingStatus.pending, []⟩)], ["f"], ["f"]⟩ 1
        [RacePC.finished true, RacePC.checked] [RacePC.start] rfl))
      (.htmlBackfillRelease ⟨[("f", ⟨ProcessingStatus.pending, []⟩)], ["f"], ["f"]⟩ 1
        [RacePC.finished true, RacePC.checked, RacePC.finished false] []
        (fun _ => none) "H" rfl))
      (.acqOk (releaseLock (setImageStatus ⟨[("f", ⟨ProcessingStatus.pending, []⟩)], ["f"], ["f"]⟩
          "f" .complete [("formats", .dict (getAvailableFormats "H" (fun _ => none) "f"))]) "f")
        1 [RacePC.finished true] [RacePC.finished false, RacePC.finished false] rfl))
      (.writePending ((acquireLock (releaseLock (setImageStatus
          ⟨[("f", ⟨ProcessingStatus.pending, []⟩)], ["f"], ["f"]⟩
          "f" .complete [("formats", .dict (getAvailableFormats "H" (fun _ => none) "f"))]) "f")
          "f").2)
        1 [RacePC.finished true] [RacePC.finished false, RacePC.finished false]))
      (.enqueue (setImageStatus ((acquireLock (releaseLock (setImageStatus
          ⟨[("f", ⟨ProcessingStatus.pending, []⟩)], ["f"], ["f"]⟩
          "f" .complete [("formats", .dict (getAvailableFormats "H" (fun _ => none) "f"))]) "f")
          "f").2) "f" .pending [])
        1 [RacePC.finished true] [RacePC.finished false, RacePC.finished false])

/-- C1 (amended): when N dispatch calls race on one fingerprint and none
of them takes a lock-releasing path during the race (no `/api/html` call
hits the COMPLETE-cache-hit or on-disk-backfill TypeError paths, whose
handler deletes the lock) and the lock's TTL does not expire, then in
every interleaving of the atomic store operations at most one dispatcher
receives `true` from `acquire_lock` (`succCount`, which also bounds the
finished winners), and consequently at most one task carrying that
fingerprint is enqueued (`queued`). -/
theorem dispatch_race_at_most_one_task (h : String) (st0 : SysState) (n : Nat) (c : RaceConfig)
    (hr : RaceReach h ⟨st0, 0, List.replicate n RacePC.start⟩ c) :
    succCount c ≤ 1 ∧ finishedTrueCount c ≤ 1 ∧ c.queued ≤ 1 := by
  obtain ⟨h1, h2, h3⟩ := raceReach_inv h st0 n c hr
  have hft : finishedTrueCount c ≤ succCount c := by
    rw [succCount, finishedTrueCount]
    omega
  exact ⟨h1, hft.trans h1, h3 ▸ hft.trans h1⟩

/-- Witness for the amended C1: a complete release-free interleaved run of
two dispatchers — both pass their checks on the clean state, the first
wins the lock, writes PENDING and enqueues; the second then fails the
lock.  Exactly one success and one task. -/
theorem dispatch_race_at_most_one_task_witness :
    succCount ⟨⟨[("f", ⟨ProcessingStatus.pending, []⟩)], ["f"], []⟩, 1,
        [RacePC.finished true, RacePC.finished false]⟩ ≤ 1
    ∧ finishedTrueCount ⟨⟨[("f", ⟨ProcessingStatus.pending, []⟩)], ["f"], []⟩, 1,
        [RacePC.finished true, RacePC.finished false]⟩ ≤ 1
    ∧ (⟨⟨[("f", ⟨ProcessingStatus.pending, []⟩)], ["f"], []⟩, 1,
        [RacePC.finished true, RacePC.finished false]⟩ : RaceConfig).queued ≤ 1 := by
  have hreach : RaceReach "f" ⟨⟨[], [], []⟩, 0, List.replicate 2 RacePC.start⟩
      ⟨⟨[("f", ⟨ProcessingStatus.pending, []⟩)], ["f"], []⟩, 1,
       [RacePC.finished true, RacePC.finished false]⟩ :=
    .tail (.tail (.tail (.tail (.tail (.tail (.refl _)
      (.check ⟨[], [], []⟩ 0 [] [RacePC.start]
        (fun cs hcs => by simp [cacheGet] at hcs) rfl))
      (.check ⟨[], [], []⟩ 0 [RacePC.checked] []
        (fun cs hcs => by simp [cacheGet] at hcs) rfl))
      (.acqOk ⟨[], [], []⟩ 0 [] [RacePC.checked] rfl))
      (.writePending ⟨[], ["f"], []⟩ 0 [] [RacePC.checked]))
      (.enqueue ⟨[("f", ⟨ProcessingStatus.pending, []⟩)], ["f"], []⟩ 0 [] [RacePC.checked]))
      (.acqFail ⟨[("f", ⟨ProcessingStatus.pending, []⟩)], ["f"], []⟩ 1 [RacePC.finished true] [] rfl)
  exact dispatch_race_at_most_one_task "f" ⟨[], [], []⟩ 2 _ hreach

end Bragi
